import Mathlib

/-!
Verification development for the sweep repository's patch-application core
(src/sweepai/utils/diff.py) and the chunked-edit orchestrator
(src/sweepai/core/sweep_bot.py, handle_modify_file).

Texts are modelled as lists of characters (`List Char`), lines as `Line`.
Python's float similarity scores are modelled exactly in integer
centi-units: a score the source computes as a + b * 0.01 is represented as
the natural number 100 * a + b, which preserves every comparison the
source performs on scores.
Python runtime exceptions (IndexError/ValueError reachable inside
`sliding_window_replacement` and `generate_new_file_from_patch`) are
modelled by `Option`/`none`.
-/

/-! ## Python string primitives -/

abbrev Line := List Char

/-- Python's default whitespace set for str.strip / str.lstrip. -/
def isPySpace (c : Char) : Bool :=
  c = ' ' || c = '\t' || c = '\n' || c = '\r' || c = '\x0b' || c = '\x0c'

/-- Python str.lstrip(). -/
def pyLstrip (s : Line) : Line := s.dropWhile isPySpace

/-- Python str.rstrip(). -/
def pyRstrip (s : Line) : Line := (s.reverse.dropWhile isPySpace).reverse

/-- Python str.strip(). -/
def pyStrip (s : Line) : Line := pyRstrip (pyLstrip s)

/-- Python len(s) - len(s.lstrip()): the number of leading whitespace chars. -/
def leadWS (s : Line) : Nat := s.length - (pyLstrip s).length

/-- Clamp one bound of a Python slice to [0, n], resolving negative indices. -/
def pyIdxClamp (n : Nat) (i : Int) : Nat :=
  if i < 0 then (i + n).toNat else min i.toNat n

/-- Python l[a:b] slicing with possibly negative bounds. -/
def pySlice {α : Type} (l : List α) (a b : Int) : List α :=
  (l.take (pyIdxClamp l.length b)).drop (pyIdxClamp l.length a)

/-- Python s.split(chr(10)): splits at every newline, keeping empty pieces;
the empty string yields one empty piece. -/
def pySplitSep : List Char → List Line
  | [] => [[]]
  | c :: rest =>
    if c = '\n' then [] :: pySplitSep rest
    else
      match pySplitSep rest with
      | [] => [[c]]
      | l :: ls => (c :: l) :: ls

/-- Python s.splitlines() restricted to newline characters (the texts the
claims quantify over use only chr(10) line terminators): the empty string
yields no lines and a trailing newline yields no trailing empty line. -/
def pySplitlines : List Char → List Line
  | [] => []
  | c :: rest =>
    if c = '\n' then [] :: pySplitlines rest
    else
      match pySplitlines rest with
      | [] => [[c]]
      | l :: ls => (c :: l) :: ls

/-- Python chr(10).join(lines). -/
def joinN (ls : List Line) : List Char := List.intercalate ['\n'] ls

/-! ## diff.py: statuses and match_string -/

/-- The three failure statuses of sliding_window_replacement (diff.py:158-160). -/
inductive SweepStatus
  | NOT_FOUND
  | IDENTICAL_LINES
  | MULTIPLE_HITS
deriving DecidableEq, Repr

/-- One inner-loop contribution of match_string (diff.py:170-176), in exact
centi-units (the Python float value times 100): 100 for a
whitespace-trimmed line match, plus 1 when a start index was supplied
and the lines match exactly (the source's 0.01 bonus). -/
def windowTerm (original search : List Line) (bonus : Bool) (i j : Nat) : Nat :=
  if i + j < original.length ∧ pyStrip (search.getD j []) = pyStrip (original.getD (i + j) [])
  then 100 + (if bonus ∧ search.getD j [] = original.getD (i + j) [] then 1 else 0)
  else 0

/-- The `count` accumulated by match_string for the window starting at i,
in centi-units. -/
def windowScore (original search : List Line) (bonus : Bool) (i : Nat) : Nat :=
  ((List.range search.length).map (windowTerm original search bonus i)).sum

/-- One outer-loop step of match_string (diff.py:177-182): strict improvement
resets the hit count to 1, equality increments it. -/
def msStep (score : Nat → Nat) (st : Int × Nat × Nat) (i : Nat) : Int × Nat × Nat :=
  if score i > st.2.1 then ((i : Int), score i, 1)
  else if score i = st.2.1 then (st.1, st.2.1, st.2.2 + 1)
  else st

/-- match_string (diff.py:161-183): sliding-window comparison returning
(index, max_similarity, current_hits), with max_similarity in exact
centi-units (100 times the source's float score), starting at
`start_index or 0`; the exact-match bonus is active exactly when
start_index is not None. -/
def match_string (original search : List Line) (start_index : Option Int) : Int × Nat × Nat :=
  (List.range' (start_index.getD 0).toNat (original.length - (start_index.getD 0).toNat)).foldl
    (msStep (windowScore original search start_index.isSome)) (-1, 0, 0)

/-! ## diff.py: whitespace handling -/

/-- lstrip_max (diff.py:185-192): drop up to maxCount leading chars drawn
from `chars`, stopping at the first char outside `chars`. -/
def lstrip_max (s : Line) (chars : List Char) (maxCount : Nat) : Line :=
  match maxCount, s with
  | 0, s => s
  | _, [] => []
  | m + 1, c :: rest => if c ∈ chars then lstrip_max rest chars m else c :: rest

/-- Python min(len(s) - len(s.lstrip()) for s in search); 0 on the empty
list, which in the source would raise and is unreachable on the paths the
claims exercise. -/
def minIndent (search : List Line) : Nat :=
  match search.map leadWS with
  | [] => 0
  | x :: xs => xs.foldl min x

/-- get_snippet_with_padding (diff.py:194-209). `none` models the
IndexError/ValueError the source raises when `search` is empty or when the
sliced snippet is empty while the first search line has no indentation. -/
def get_snippet_with_padding (original : List Line) (index : Int) (search : List Line) :
    Option (List Line × Line × Bool) :=
  let snippet := pySlice original index (index + search.length)
  match search with
  | [] => none
  | s0 :: _ =>
    if leadWS s0 = 0 then
      match snippet with
      | [] => none
      | n0 :: _ => some (snippet, List.replicate (leadWS n0) ' ', false)
    else
      some (snippet, List.replicate (minIndent search) ' ', true)

/-- The `modified` replacement lines of diff.py:270-275. -/
def buildModified (search replace : List Line) (spaces : Line) (strip : Bool) : List Line :=
  if strip then replace.map (fun l => spaces ++ lstrip_max l [' '] (minIndent search))
  else replace.map (fun l => spaces ++ l)

/-- The tail of sliding_window_replacement from the `if index == -1` check
(diff.py:265-279): NOT_FOUND on -1, otherwise pad the replacement and
splice it over the matched window. -/
def spliceAt (original search replace : List Line) (index : Int) :
    Option (List Line × Option Nat × Option SweepStatus) :=
  if index = -1 then some (original, none, some SweepStatus.NOT_FOUND)
  else
    match get_snippet_with_padding original index search with
    | none => none
    | some (_, spaces, strip) =>
      some (original.take index.toNat ++ buildModified search replace spaces strip
              ++ original.drop (index.toNat + search.length),
            some index.toNat, none)

/-- The matching phase of sliding_window_replacement (diff.py:244-279):
everything after the ellipsis preprocessing. -/
def matchPhase (original search replace : List Line) (ctx : Option (List Line)) :
    Option (List Line × Option Nat × Option SweepStatus) :=
  let m := match_string original search none
  if m.2.1 = 0 then some (original, none, some SweepStatus.IDENTICAL_LINES)
  else if m.2.2 > 1 then
    match ctx with
    | none => some (original, none, some SweepStatus.MULTIPLE_HITS)
    | some cb =>
      if cb = [] then some (original, none, some SweepStatus.MULTIPLE_HITS)
      else
        let mc := match_string original cb none
        match get_snippet_with_padding original mc.1 cb with
        | none => none
        | some (_, oldSpaces, _) =>
          if mc.2.2 = 1 then
            let m2 := match_string original (search.map (fun l => oldSpaces ++ l)) (some (mc.1 + 1))
            spliceAt original search replace m2.1
          else some (original, none, some SweepStatus.MULTIPLE_HITS)
  else spliceAt original search replace m.1

/-- The elision marker: a line whose trimmed content is exactly three dots. -/
def elisionMarker : Line := ['.', '.', '.']

/-- First index whose trimmed line equals the elision marker, -1 if none;
mirrors the first_line_idx loops of diff.py:217-228. -/
def findMarkerIdxInt : List Line → Int
  | [] => -1
  | l :: ls =>
    if pyStrip l = elisionMarker then 0
    else
      let r := findMarkerIdxInt ls
      if r = -1 then -1 else r + 1

/-- The character list begins with three consecutive dots. -/
def startsWithDots : List Char → Bool
  | a :: b :: c :: _ => (a == '.') && (b == '.') && (c == '.')
  | _ => false

/-- Three consecutive dots occur somewhere in the character list
(Python's substring containment of three dots). -/
def containsDots : List Char → Bool
  | [] => false
  | c :: rest => startsWithDots (c :: rest) || containsDots rest

/-- canDoDotCheck (diff.py:214): the ellipsis preprocessing is allowed only
when no original line contains three consecutive dots in its trimmed form. -/
def canDoDotCheck (original : List Line) : Bool :=
  ! original.any (fun line => containsDots (pyStrip line))

/-- The body of sliding_window_replacement (diff.py:211-279), with a fuel
argument as a structural termination device: the recursive split call
strictly shrinks the search, so fuel = search length + 1 never runs out
and the 0 case is unreachable from sliding_window_replacement. -/
def swrAux : Nat → List Line → List Line → List Line → Option (List Line) →
    Option (List Line × Option Nat × Option SweepStatus)
  | 0, _, _, _, _ => none
  | fuel + 1, original, search, replace, search_context_before =>
    if canDoDotCheck original then
      let i := findMarkerIdxInt search
      let j := findMarkerIdxInt replace
      if i = 0 ∧ j = 0 then
        matchPhase original (search.drop 1) (replace.drop 1) search_context_before
      else if i = (search.length : Int) - 1 ∧ j = (replace.length : Int) - 1 then
        matchPhase original (search.take i.toNat) (replace.take j.toNat) search_context_before
      else if i ≠ -1 ∧ j ≠ -1 then
        match swrAux fuel original (search.drop (i.toNat + 1))
            (replace.drop (j.toNat + 1)) (some (search.take i.toNat)) with
        | none => none
        | some (o', _, _) =>
          matchPhase o' (search.take i.toNat) (replace.take j.toNat) search_context_before
      else matchPhase original search replace search_context_before
    else matchPhase original search replace search_context_before

/-- sliding_window_replacement (diff.py:211-279). `none` models an uncaught
Python exception escaping the function. -/
def sliding_window_replacement (original search replace : List Line)
    (search_context_before : Option (List Line)) :
    Option (List Line × Option Nat × Option SweepStatus) :=
  swrAux (search.length + 1) original search replace search_context_before

/-! ## diff.py: the hunk pattern of get_all_diffs / generate_new_file_from_patch

The Python regex (diff.py:282 and diff.py:290) is

  four open-angle chars, non-greedy any, newline, capture 1 (non-greedy),
  newline, four equals chars, any run of chars that are neither newline nor
  equals, newline, capture 2 (non-greedy), optional newline, four
  close-angle chars

compiled with DOTALL and scanned with findall (leftmost, non-overlapping).
The functions below implement exactly that backtracking search: each
non-greedy hole is extended one character at a time until the remainder of
the pattern matches. -/

/-- Match the closing part (optional newline, then four close-angle chars)
at the head of l, returning the rest; the optional newline is greedy. -/
def closeAt (l : List Char) : Option (List Char) :=
  if l.take 5 = ['\n', '>', '>', '>', '>'] then some (l.drop 5)
  else if l.take 4 = ['>', '>', '>', '>'] then some (l.drop 4)
  else none

/-- Non-greedy search for capture 2: the shortest prefix whose remainder
starts with the closing part. Returns (capture, rest after close). -/
def findReplAux : List Char → List Char → Option (List Char × List Char)
  | acc, [] =>
    match closeAt [] with
    | some r => some (acc.reverse, r)
    | none => none
  | acc, c :: cs =>
    match closeAt (c :: cs) with
    | some r => some (acc.reverse, r)
    | none => findReplAux (c :: acc) cs

/-- The separator trailer: a run of chars that are neither newline nor
equals, then a newline; returns the rest after the newline. -/
def sepTail : List Char → Option (List Char)
  | [] => none
  | c :: cs => if c = '\n' then some cs else if c = '=' then none else sepTail cs

/-- After the four equals chars: consume the trailer then find capture 2. -/
def afterSep (l : List Char) : Option (List Char × List Char) :=
  match sepTail l with
  | none => none
  | some r => findReplAux [] r

/-- Non-greedy search for capture 1: the shortest prefix followed by a
newline, four equals chars and a successful remainder match. On an inner
failure the capture keeps extending (regex backtracking). The empty rest
never matches the five-char separator head, so it yields no match. -/
def findSearchAux : List Char → List Char → Option (List Char × List Char × List Char)
  | _, [] => none
  | acc, c :: cs =>
    if (c :: cs).take 5 = ['\n', '=', '=', '=', '='] then
      match afterSep ((c :: cs).drop 5) with
      | some (r, rest) => some (acc.reverse, r, rest)
      | none => findSearchAux (c :: acc) cs
    else findSearchAux (c :: acc) cs

/-- The non-greedy any-run after the four open-angle chars: skip to each
newline in turn and try to match the captures from there. -/
def openTailAux : List Char → Option (List Char × List Char × List Char)
  | [] => none
  | c :: cs =>
    if c = '\n' then
      match findSearchAux [] cs with
      | some res => some res
      | none => openTailAux cs
    else openTailAux cs

/-- Try to match one hunk of the pattern at this exact position, returning
(search capture, replace capture, rest after the match). -/
def matchHunkAt (l : List Char) : Option (List Char × List Char × List Char) :=
  if l.take 4 = ['<', '<', '<', '<'] then openTailAux (l.drop 4) else none

/-- findall scanning: try the pattern at each position left to right,
resuming after each non-overlapping match. Fuel bounds the scan; every
step consumes at least one character, so length + 1 fuel suffices. The
pattern never matches the empty rest (its first four-char literal fails),
so the scan of an empty rest ends. -/
def scanAux : Nat → List Char → List (List Char × List Char)
  | 0, _ => []
  | _ + 1, [] => []
  | fuel + 1, c :: cs =>
    match matchHunkAt (c :: cs) with
    | some (s, r, rest) => (s, r) :: scanAux fuel rest
    | none => scanAux fuel cs

/-- All (search, replace) capture pairs of the hunk pattern, in order:
the re.findall of diff.py:290 (and the capture pairs of diff.py:282). -/
def get_all_matches (l : List Char) : List (List Char × List Char) :=
  scanAux (l.length + 1) l

/-! ## diff.py: generate_new_file_from_patch -/

/-- The old-file tag stripping of diff.py:298-306, including the source's
asymmetry: the conditions on `replace` test the tag without its closing
angle bracket while the slices always remove the full tag length. -/
def stripTagsPair (search replace : List Char) : List Char × List Char :=
  let p1 :=
    if List.isPrefixOf ("<old_file>".toList) (pyLstrip search) ∧
        List.isPrefixOf ("<old_file".toList) (pyLstrip replace) then
      ((pyLstrip search).drop 10, (pyLstrip replace).drop 10)
    else (search, replace)
  if List.isSuffixOf ("</old_file>".toList) (pyRstrip p1.1) ∧
      List.isSuffixOf ("</old_file".toList) (pyRstrip p1.2) then
    ((pyRstrip p1.1).take ((pyRstrip p1.1).length - 11),
     (pyRstrip p1.2).take ((pyRstrip p1.2).length - 11))
  else p1

/-- The per-hunk loop of diff.py:298-308: strip tags, split into lines and
apply sliding_window_replacement, ignoring its per-hunk status. -/
def applyHunks : List Line → List (List Char × List Char) → Option (List Line)
  | lines, [] => some lines
  | lines, (s, r) :: rest =>
    let p := stripTagsPair s r
    match sliding_window_replacement lines (pySplitlines p.1) (pySplitlines p.2) none with
    | none => none
    | some (lines', _, _) => applyHunks lines' rest

/-- generate_new_file_from_patch (diff.py:286-311). `none` models an
uncaught exception: the ValueError of the tuple unpacking at diff.py:295
when the old content is whitespace-only and no hunk parsed, or an error
escaping sliding_window_replacement. -/
def generate_new_file_from_patch (modify_file_response old_file_content : List Char) :
    Option (List Char) :=
  let foundMatches := get_all_matches modify_file_response
  if pyStrip old_file_content = [] then
    match foundMatches with
    | [] => none
    | (_, r) :: _ => some r
  else
    match applyHunks (pySplitlines old_file_content) foundMatches with
    | none => none
    | some lines => some (joinN lines)

/-! ## sweep_bot.py: handle_modify_file

The external collaborators (the language-model call wrapped by modify_file,
and EditBot.should_edit) are abstracted as an oracle keyed by the call-site
data that determines them: the chunking flag, the chunk size and the chunk
start offset. PyErr distinguishes the exception class MaxTokensExceeded
(raised by modify_file at sweep_bot.py:371-374 when the collaborator
signals a token overflow) from every other exception. -/

inductive PyErr
  | maxTokens
  | other
deriving DecidableEq, Repr

structure ModelOracle where
  shouldEdit : Nat → Nat → Bool
  modify : Bool → Nat → Nat → Except PyErr (List Char)

/-- The chunk-size backoff candidates of handle_modify_file. -/
def chunk_sizes : List Nat := [800, 600, 400]

/-- The start offsets of range(0, numLines, size). -/
def chunkStarts (numLines size : Nat) : List Nat :=
  (List.range ((numLines + size - 1) / size)).map (· * size)

/-- The inner chunk loop of handle_modify_file: per chunk, either pass the
chunk through unchanged (should_edit false) or take the collaborator's
text; append with a newline separator except after the final chunk. An
exception aborts the loop, KEEPING the text accumulated so far (the
accumulator is the enclosing new_file_contents variable). -/
def chunkLoop (o : ModelOracle) (lines : List Line) (size : Nat) :
    List Nat → List Char → List Char × Option PyErr
  | [], acc => (acc, none)
  | i :: rest, acc =>
    let step : Except PyErr (List Char) :=
      if o.shouldEdit size i then o.modify true size i
      else Except.ok (joinN ((lines.drop i).take size))
    match step with
    | Except.error e => (acc, some e)
    | Except.ok newChunk =>
      chunkLoop o lines size rest
        (if i + size < lines.length then acc ++ newChunk ++ ['\n'] else acc ++ newChunk)

/-- One chunk-size attempt: the body of the `for CHUNK_SIZE in chunk_sizes`
loop. The non-chunked path REPLACES the accumulator on success and leaves
it unchanged on an exception; the chunked path appends to it. -/
def processSize (o : ModelOracle) (lines : List Line) (size : Nat) (nfc : List Char) :
    List Char × Option PyErr :=
  if 2 * lines.length > 3 * size then
    chunkLoop o lines size (chunkStarts lines.length size) nfc
  else
    match o.modify false size 0 with
    | Except.ok t => (t, none)
    | Except.error e => (nfc, some e)

/-- The chunk-size backoff loop: break on the first size whose attempt
raises no exception; on an exception continue with the next size WITHOUT
resetting the accumulated contents (mirroring the source, which never
reassigns new_file_contents on the failure path). -/
def sizeLoop (o : ModelOracle) (lines : List Line) : List Nat → List Char → List Char
  | [], nfc => nfc
  | size :: rest, nfc =>
    match processSize o lines size nfc with
    | (nfc', none) => nfc'
    | (nfc', some _) => sizeLoop o lines rest nfc'

inductive HandleResult
  | updated (contents : List Char)
  | skippedNoChange
  | failedOther
  | raisedMaxTokens
deriving DecidableEq, Repr

/-- handle_modify_file (sweep_bot.py:505-581) for a file that was read
successfully. The body of the outer try is pure here because every
exception raised inside the chunk-size loop is already consumed by the
per-size `except Exception: continue`; the outer match mirrors the
source's `except MaxTokensExceeded: raise` and `except Exception: return
False` handlers. Repository writes are assumed to succeed; `updated` and
`skippedNoChange` model the True/False returns. -/
def handle_modify_file (o : ModelOracle) (file_contents : List Char) : HandleResult :=
  let body : Except PyErr HandleResult :=
    Except.ok
      (let lines := pySplitSep file_contents
       let nfc := sizeLoop o lines chunk_sizes []
       if file_contents = nfc then HandleResult.skippedNoChange
       else HandleResult.updated nfc)
  match body with
  | Except.ok r => r
  | Except.error PyErr.maxTokens => HandleResult.raisedMaxTokens
  | Except.error PyErr.other => HandleResult.failedOther

/-! ## Auxiliary predicates and concrete oracles used by the theorems -/

/-- Invariant characterizing the fold state of match_string over the list
P of already-visited window start indices: either no visited window scored
above zero (index still -1, hit count = number of visited windows), or the
state holds the positive maximum, an index achieving it, and the number of
visited windows achieving it. -/
def msInv (score : Nat → Nat) (P : List Nat) (st : Int × Nat × Nat) : Prop :=
  (st.2.1 = 0 ∧ st.1 = -1 ∧ st.2.2 = P.length ∧ ∀ i ∈ P, score i = 0)
  ∨ (0 < st.2.1 ∧ 0 ≤ st.1 ∧ st.1.toNat ∈ P ∧ score st.1.toNat = st.2.1 ∧
      (∀ i ∈ P, score i ≤ st.2.1) ∧
      st.2.2 = P.countP (fun i => decide (score i = st.2.1)))

/-- The condition under which sliding_window_replacement takes the
recursive two-part ellipsis split (the third branch of diff.py:230-242). -/
def takesSplitBranch (original search replace : List Line) : Bool :=
  canDoDotCheck original &&
    (let i := findMarkerIdxInt search
     let j := findMarkerIdxInt replace
     !((i == 0) && (j == 0)) &&
       !((i == (search.length : Int) - 1) && (j == (replace.length : Int) - 1)) &&
       (!(i == -1) && !(j == -1)))

/-- The character list begins with four consecutive copies of c. -/
def startsRun4 (c : Char) : List Char → Bool
  | a :: b :: d :: e :: _ => (a == c) && (b == c) && (d == c) && (e == c)
  | _ => false

/-- Four consecutive copies of c occur somewhere in the character list. -/
def hasRun4 (c : Char) : List Char → Bool
  | [] => false
  | a :: rest => startsRun4 c (a :: rest) || hasRun4 c rest

/-- A hunk block in the wire grammar: a ≥ 4 open-angle chars, newline,
search text S, newline, exactly four equals chars, trailer T, newline,
replace text R, newline, b ≥ 4 close-angle chars. -/
def mkHunkBlock (a : Nat) (S T R : List Char) (b : Nat) : List Char :=
  List.replicate a '<' ++
    '\n' :: (S ++ '\n' :: '=' :: '=' :: '=' :: '=' ::
      (T ++ '\n' :: (R ++ '\n' :: List.replicate b '>')))

/-- Oracle for the max-tokens scenario: the language-model collaborator
signals a token overflow (MaxTokensExceeded) on every modify_file call. -/
def oracleMaxTokens : ModelOracle :=
  ⟨fun _ _ => true, fun _ _ _ => Except.error PyErr.maxTokens⟩

/-- Oracle for the chunk-size backoff scenario on a 1300-line file: at
size 800, the chunk at offset 0 yields the text A and the chunk at offset
800 raises; at size 600 the chunks at offsets 0, 600 and 1200 yield B, C
and D. The text A is produced by no other call, so any A in the final
contents derives from the failed size-800 attempt. -/
def oracleBackoff : ModelOracle :=
  ⟨fun _ _ => true,
   fun _ size i =>
     if size = 800 ∧ i = 800 then Except.error PyErr.other
     else if size = 800 then Except.ok ("A".toList)
     else if size = 600 ∧ i = 0 then Except.ok ("B".toList)
     else if size = 600 ∧ i = 600 then Except.ok ("C".toList)
     else Except.ok ("D".toList)⟩

/-! ## Theorems -/

/-- Claim C2: for every patch text containing at least one well-formed
hunk and an empty original file content, generate_new_file_from_patch
returns the first hunk's replace text verbatim as the entire output,
regardless of the hunk's search text and of any later hunks. -/
theorem claim_C2_empty_file_first_replace (patch s r : List Char)
    (rest : List (List Char × List Char))
    (h : get_all_matches patch = (s, r) :: rest) :
    generate_new_file_from_patch patch [] = some r := by
  unfold generate_new_file_from_patch
  rw [h]
  rfl

/-- Witness for claim C2 at a concrete patch. -/
theorem claim_C2_witness :
    generate_new_file_from_patch ("<<<<\nx\n====\nprint(1)\n>>>>".toList) [] =
      some ("print(1)".toList) :=
  claim_C2_empty_file_first_replace _ ("x".toList) ("print(1)".toList) [] (by decide)

/-- Claim C10: if the original file content contains no non-whitespace
characters and the patch text contains zero well-formed hunks,
generate_new_file_from_patch raises (modelled: returns none) rather than
returning a string or a failure status. -/
theorem claim_C10_empty_file_no_hunks_raises (patch old : List Char)
    (hold : pyStrip old = []) (hpm : get_all_matches patch = []) :
    generate_new_file_from_patch patch old = none := by
  unfold generate_new_file_from_patch
  rw [hpm, if_pos hold]

/-- Witness for claim C10 at a concrete hunk-free patch and a
whitespace-only original. -/
theorem claim_C10_witness :
    generate_new_file_from_patch ("hello".toList) ("  ".toList) = none :=
  claim_C10_empty_file_no_hunks_raises _ _ (by decide) (by decide)

/-- Claim C7 (code bug): handle_modify_file can never propagate
MaxTokensExceeded, because the per-chunk-size handler catches every
exception and continues with the next size; concretely, on a one-line
file whose every modify_file call signals a token overflow, the
orchestrator falls through all three chunk sizes and pushes an update
with empty contents instead of raising. -/
theorem claim_C7_maxtokens_swallowed :
    (∀ (o : ModelOracle) (fc : List Char),
        handle_modify_file o fc ≠ HandleResult.raisedMaxTokens) ∧
    handle_modify_file oracleMaxTokens ("x".toList) = HandleResult.updated [] := by
  constructor
  · intro o fc
    show (if fc = sizeLoop o (pySplitSep fc) chunk_sizes [] then HandleResult.skippedNoChange
          else HandleResult.updated (sizeLoop o (pySplitSep fc) chunk_sizes [])) ≠
        HandleResult.raisedMaxTokens
    split <;> simp
  · decide

set_option maxRecDepth 40000 in
/-- Claim C1 (code bug): on a 1300-line file, when the size-800 attempt
raises partway through the chunk loop after emitting the text A for its
first chunk, the accumulated contents are NOT reset for the size-600
retry: the final contents are A, then a newline, then the full size-600
output B, C, D - so text derived from the failed size-800 attempt is
emitted. -/
theorem claim_C1_partial_progress_kept :
    handle_modify_file oracleBackoff (List.replicate 1299 '\n') =
      HandleResult.updated ("A\nB\nC\nD".toList) := by
  decide

/-- Counterexample to claim C3: a no-op hunk (search = replace) rewrites
the second line's indentation from four spaces to two, so the result
differs from the original. -/
theorem claim_C3_counterexample :
    sliding_window_replacement [("  a".toList), ("    b".toList)]
        [("a".toList), ("b".toList)] [("a".toList), ("b".toList)] none =
      some ([("  a".toList), ("  b".toList)], some 0, none) ∧
    [("  a".toList), ("  b".toList)] ≠ [("  a".toList), ("    b".toList)] := by
  constructor
  · decide
  · decide

/-- Counterexample to claim C4: the search equals the window of the
original at index 0 verbatim, yet the hunk is not applied at any index -
the tie with the window at index 1 yields MULTIPLE_HITS. -/
theorem claim_C4_counterexample :
    (([("a".toList), ("a".toList)].drop 0).take 1 = [("a".toList)]) ∧
    sliding_window_replacement [("a".toList), ("a".toList)] [("a".toList)]
        [("b".toList)] none =
      some ([("a".toList), ("a".toList)], none, some SweepStatus.MULTIPLE_HITS) := by
  constructor
  · decide
  · decide

/-- Counterexample to claim C5: no line of the original is itself the
elision marker, yet no marker-dropping occurs - the hunk is matched
as-is because one original line merely CONTAINS three dots, and the
marker line survives into the output. -/
theorem claim_C5_counterexample :
    (∀ l ∈ [("foo...bar".toList), ("x".toList)], pyStrip l ≠ elisionMarker) ∧
    sliding_window_replacement [("foo...bar".toList), ("x".toList)]
        [("...".toList), ("x".toList)] [("...".toList), ("z".toList)] none =
      some ([("...".toList), ("z".toList)], some 0, none) := by
  constructor
  · decide
  · decide

/-- Counterexample to claim C6: the initial match ties (hit count 2), the
two-line context matches uniquely at index 0 (so its window ends at index
1), yet the recomputed match is applied AT index 1 - inside the context
occurrence, not strictly after the context's end. -/
theorem claim_C6_counterexample :
    match_string [("A".toList), ("B".toList), ("B".toList)] [("B".toList)] none =
        (1, 100, 2) ∧
    match_string [("A".toList), ("B".toList), ("B".toList)]
        [("A".toList), ("B".toList)] none = (0, 200, 1) ∧
    sliding_window_replacement [("A".toList), ("B".toList), ("B".toList)]
        [("B".toList)] [("Z".toList)] (some [("A".toList), ("B".toList)]) =
      some ([("A".toList), ("Z".toList), ("B".toList)], some 1, none) := by
  refine ⟨by decide, by decide, by decide⟩

/-- Counterexample to claim C8: a block whose separator line is five
equals characters yields no hunk at all - the pattern requires exactly
four equals characters before the optional non-equals trailer. -/
theorem claim_C8_counterexample :
    get_all_matches ("<<<<\na\n=====\nb\n>>>>".toList) = [] := by
  decide

/-- Counterexample to claim C9: with an interior ellipsis split, the
second part is applied first; when the first part then fails with
IDENTICAL_LINES, the returned line sequence is NOT the original
unchanged - it carries the second part's modification. -/
theorem claim_C9_counterexample :
    sliding_window_replacement [("b".toList)]
        [("x".toList), ("...".toList), ("b".toList)]
        [("x".toList), ("...".toList), ("c".toList)] none =
      some ([("c".toList)], none, some SweepStatus.IDENTICAL_LINES) ∧
    [("c".toList)] ≠ [("b".toList)] := by
  constructor
  · decide
  · decide

/-! ### Elementary lemmas about the Python string primitives -/

theorem take_min_length {α : Type} (l : List α) (b : Nat) :
    l.take (min b l.length) = l.take b := by
  rcases le_total b l.length with h | h
  · rw [min_eq_left h]
  · rw [min_eq_right h, List.take_length, List.take_of_length_le h]

theorem drop_min_length {α : Type} (l : List α) (a : Nat) :
    l.drop (min a l.length) = l.drop a := by
  rcases le_total a l.length with h | h
  · rw [min_eq_left h]
  · rw [min_eq_right h, List.drop_length, List.drop_eq_nil_of_le h]

theorem pySlice_natCast {α : Type} (l : List α) (a b : Nat) :
    pySlice l (a : Int) (b : Int) = (l.take b).drop a := by
  unfold pySlice pyIdxClamp
  have ha : ¬((a : Int) < 0) := by omega
  have hb : ¬((b : Int) < 0) := by omega
  rw [if_neg ha, if_neg hb, Int.toNat_natCast, Int.toNat_natCast, take_min_length]
  rcases le_total a l.length with h | h
  · rw [min_eq_left h]
  · rw [min_eq_right h, List.drop_eq_nil_of_le (by simp), List.drop_eq_nil_of_le (by simp [h])]

theorem pySlice_window (O : List Line) (k n : Nat) :
    pySlice O (k : Int) ((k : Int) + (n : Int)) = (O.drop k).take n := by
  have hcast : (k : Int) + (n : Int) = ((k + n : Nat) : Int) := by push_cast; ring
  rw [hcast, pySlice_natCast, List.drop_take]
  congr 1
  omega

/-! ### match_string analysis -/

theorem windowTerm_le (O s : List Line) (i j : Nat) :
    windowTerm O s false i j ≤ 100 := by
  unfold windowTerm
  split
  · simp
  · omega

theorem sum_map_const_nat (n c : Nat) : ((List.range n).map (fun _ => c)).sum = n * c := by
  induction n with
  | zero => simp
  | succ k ih =>
    rw [List.range_succ]
    simp [ih]
    ring

theorem windowScore_le (O s : List Line) (i : Nat) :
    windowScore O s false i ≤ 100 * s.length := by
  unfold windowScore
  calc ((List.range s.length).map (windowTerm O s false i)).sum
      ≤ ((List.range s.length).map (fun _ => 100)).sum :=
        List.sum_le_sum (fun j _ => windowTerm_le O s i j)
    _ = s.length * 100 := sum_map_const_nat s.length 100
    _ = 100 * s.length := Nat.mul_comm _ _

theorem windowScore_verbatim (O s : List Line) (k : Nat)
    (hk : k + s.length ≤ O.length) (hw : (O.drop k).take s.length = s) :
    windowScore O s false k = 100 * s.length := by
  unfold windowScore
  have hterm : ∀ j ∈ List.range s.length, windowTerm O s false k j = 100 := by
    intro j hj
    rw [List.mem_range] at hj
    have hlt : k + j < O.length := by omega
    have hget : s.getD j [] = O.getD (k + j) [] := by
      conv_lhs => rw [← hw]
      rw [List.getD_eq_getElem?_getD, List.getD_eq_getElem?_getD]
      rw [List.getElem?_take_of_lt hj, List.getElem?_drop]
    unfold windowTerm
    rw [if_pos ⟨hlt, by rw [hget]⟩]
    simp
  rw [List.map_congr_left hterm, sum_map_const_nat, Nat.mul_comm]

theorem windowScore_nil (O : List Line) (b : Bool) (i : Nat) :
    windowScore O [] b i = 0 := by
  unfold windowScore
  simp

theorem msInv_nil (score : Nat → Nat) : msInv score [] (-1, 0, 0) :=
  Or.inl ⟨rfl, rfl, rfl, by simp⟩

theorem msInv_step (score : Nat → Nat) (P : List Nat) (st : Int × Nat × Nat) (i : Nat)
    (h : msInv score P st) : msInv score (P ++ [i]) (msStep score st i) := by
  obtain ⟨idx, mx, cnt⟩ := st
  unfold msInv at h ⊢
  unfold msStep
  dsimp only at h ⊢
  rcases h with ⟨h0, hidx, hcnt, hall⟩ | ⟨hpos, hnn, hmem, hsc, hub, hcnt⟩
  · subst h0
    subst hidx
    by_cases hgt : score i > 0
    · rw [if_pos hgt]
      right
      refine ⟨hgt, by positivity, ?_, by rw [Int.toNat_natCast], ?_, ?_⟩
      · rw [Int.toNat_natCast]
        exact List.mem_append_right _ (List.mem_singleton_self i)
      · intro x hx
        rcases List.mem_append.mp hx with hx | hx
        · rw [hall x hx]; omega
        · rw [List.mem_singleton.mp hx]
      · rw [List.countP_append]
        have h1 : P.countP (fun x => decide (score x = score i)) = 0 := by
          rw [List.countP_eq_zero]
          intro x hx
          simp only [decide_eq_true_eq]
          rw [hall x hx]
          omega
        rw [h1]
        simp
    · have hz : score i = 0 := by omega
      rw [if_neg hgt, if_pos hz]
      left
      refine ⟨rfl, rfl, ?_, ?_⟩
      · rw [List.length_append, hcnt]
        simp
      · intro x hx
        rcases List.mem_append.mp hx with hx | hx
        · exact hall x hx
        · rw [List.mem_singleton.mp hx]; exact hz
  · by_cases hgt : score i > mx
    · rw [if_pos hgt]
      dsimp only
      right
      refine ⟨by omega, by positivity, ?_, by rw [Int.toNat_natCast], ?_, ?_⟩
      · rw [Int.toNat_natCast]
        exact List.mem_append_right _ (List.mem_singleton_self i)
      · intro x hx
        rcases List.mem_append.mp hx with hx | hx
        · have := hub x hx; omega
        · rw [List.mem_singleton.mp hx]
      · rw [List.countP_append]
        have h1 : P.countP (fun x => decide (score x = score i)) = 0 := by
          rw [List.countP_eq_zero]
          intro x hx
          simp only [decide_eq_true_eq]
          have := hub x hx
          omega
        rw [h1]
        simp
    · by_cases heq : score i = mx
      · rw [if_neg hgt, if_pos heq]
        dsimp only
        right
        refine ⟨hpos, hnn, List.mem_append_left _ hmem, hsc, ?_, ?_⟩
        · intro x hx
          rcases List.mem_append.mp hx with hx | hx
          · exact hub x hx
          · rw [List.mem_singleton.mp hx]
            omega
        · rw [List.countP_append, hcnt]
          have h1 : List.countP (fun x => decide (score x = mx)) [i] = 1 := by
            simp [heq]
          rw [h1]
      · rw [if_neg hgt, if_neg heq]
        dsimp only
        right
        refine ⟨hpos, hnn, List.mem_append_left _ hmem, hsc, ?_, ?_⟩
        · intro x hx
          rcases List.mem_append.mp hx with hx | hx
          · exact hub x hx
          · rw [List.mem_singleton.mp hx]
            omega
        · rw [List.countP_append, hcnt]
          have h1 : List.countP (fun x => decide (score x = mx)) [i] = 0 := by
            simp [heq]
          rw [h1]
          omega

theorem msInv_foldl (score : Nat → Nat) :
    ∀ (L P : List Nat) (st : Int × Nat × Nat), msInv score P st →
      msInv score (P ++ L) (L.foldl (msStep score) st)
  | [], P, st, h => by simpa using h
  | i :: L, P, st, h => by
    have h3 := msInv_foldl score L (P ++ [i]) (msStep score st i) (msInv_step score P st i h)
    simpa [List.append_assoc] using h3

theorem match_string_inv (O s : List Line) (st : Option Int) :
    msInv (windowScore O s st.isSome)
      (List.range' (st.getD 0).toNat (O.length - (st.getD 0).toNat))
      (match_string O s st) := by
  have h := msInv_foldl (windowScore O s st.isSome)
      (List.range' (st.getD 0).toNat (O.length - (st.getD 0).toNat)) [] (-1, 0, 0)
      (msInv_nil _)
  simpa [match_string] using h

theorem match_string_empty_search (O : List Line) (st : Option Int) :
    (match_string O [] st).2.1 = 0 := by
  have h := match_string_inv O [] st
  rcases h with ⟨h0, _⟩ | ⟨hpos, _, _, hsc, _⟩
  · exact h0
  · rw [windowScore_nil] at hsc
    omega

/-- The central property of match_string without a start index: if the
window at k achieves a positive score that no window exceeds, then the
returned maximum is that score, the returned index is a valid window
start achieving it, and a tie count of 1 forces the returned index to be
exactly k. -/
theorem match_string_argmax (O s : List Line) (k : Nat) (hkO : k < O.length)
    (hpos : 0 < windowScore O s false k)
    (hub : ∀ i, windowScore O s false i ≤ windowScore O s false k) :
    (match_string O s none).2.1 = windowScore O s false k ∧
    0 ≤ (match_string O s none).1 ∧
    ((match_string O s none).1).toNat < O.length ∧
    ((match_string O s none).2.2 = 1 → (match_string O s none).1 = (k : Int)) := by
  have hinv := match_string_inv O s none
  simp only [Option.isSome_none, Option.getD_none, Int.toNat_zero, Nat.sub_zero] at hinv
  have hkP : k ∈ List.range' 0 O.length := by
    rw [List.mem_range'_1]
    omega
  rcases hinv with ⟨h0, _, _, hall⟩ | ⟨hmpos, hnn, hmem, hsc, hubP, hcnt⟩
  · exact absurd (hall k hkP) (by omega)
  · have hmemlt : ((match_string O s none).1).toNat < O.length := by
      have := List.mem_range'_1.mp hmem
      omega
    have hmx : (match_string O s none).2.1 = windowScore O s false k := by
      have h1 := hub ((match_string O s none).1).toNat
      have h2 := hubP k hkP
      omega
    refine ⟨hmx, hnn, hmemlt, ?_⟩
    intro hone
    rw [hone, List.countP_eq_length_filter] at hcnt
    obtain ⟨a, ha⟩ := List.length_eq_one.mp hcnt.symm
    have hkf : k ∈ List.filter
        (fun i => decide (windowScore O s false i = (match_string O s none).2.1))
        (List.range' 0 O.length) := by
      rw [List.mem_filter]
      exact ⟨hkP, by simp [hmx]⟩
    have hif : ((match_string O s none).1).toNat ∈ List.filter
        (fun i => decide (windowScore O s false i = (match_string O s none).2.1))
        (List.range' 0 O.length) := by
      rw [List.mem_filter]
      exact ⟨hmem, by simp [hsc]⟩
    rw [ha] at hkf hif
    have hk_eq : k = a := List.mem_singleton.mp hkf
    have hi_eq : ((match_string O s none).1).toNat = a := List.mem_singleton.mp hif
    rw [← Int.toNat_of_nonneg hnn, hi_eq, hk_eq]

/-! ### Branch equations for sliding_window_replacement -/

theorem swr_of_not_canDo (O s r : List Line) (ctx : Option (List Line))
    (h : canDoDotCheck O = false) :
    sliding_window_replacement O s r ctx = matchPhase O s r ctx := by
  unfold sliding_window_replacement swrAux
  rw [h]
  simp

theorem findMarker_none_of (s : List Line)
    (h : ∀ l ∈ s, pyStrip l ≠ elisionMarker) : findMarkerIdxInt s = -1 := by
  induction s with
  | nil => rfl
  | cons l ls ih =>
    unfold findMarkerIdxInt
    rw [if_neg (h l (List.mem_cons_self l ls))]
    rw [ih (fun x hx => h x (List.mem_cons_of_mem l hx))]
    rfl

theorem swr_no_marker_in_search (O s r : List Line) (ctx : Option (List Line))
    (hi : findMarkerIdxInt s = -1) (hs : s ≠ []) :
    sliding_window_replacement O s r ctx = matchPhase O s r ctx := by
  by_cases hc : canDoDotCheck O
  · unfold sliding_window_replacement swrAux
    rw [if_pos hc]
    have hlen : (0 : Int) < (s.length : Int) := by
      exact_mod_cast List.length_pos.mpr hs
    simp only [hi]
    rw [if_neg (by rintro ⟨h1, -⟩; norm_num at h1)]
    rw [if_neg (by rintro ⟨h1, -⟩; omega)]
    rw [if_neg (by rintro ⟨h1, -⟩; exact h1 rfl)]
  · exact swr_of_not_canDo O s r ctx (by simpa using hc)

theorem swr_trim_head (O s r : List Line) (ctx : Option (List Line))
    (hc : canDoDotCheck O = true)
    (hi : findMarkerIdxInt s = 0) (hj : findMarkerIdxInt r = 0) :
    sliding_window_replacement O s r ctx =
      matchPhase O (s.drop 1) (r.drop 1) ctx := by
  unfold sliding_window_replacement swrAux
  rw [hc]
  simp only [hi, hj]
  simp

/-! ### Failure results of the matching phase -/

theorem spliceAt_fail (O s r : List Line) (idx : Int)
    (res : List Line × Option Nat × Option SweepStatus)
    (h : spliceAt O s r idx = some res) (hst : res.2.2 ≠ none) :
    res.1 = O ∧ res.2.1 = none := by
  unfold spliceAt at h
  by_cases hidx : idx = -1
  · rw [if_pos hidx] at h
    injection h with h'
    rw [← h']
    exact ⟨rfl, rfl⟩
  · rw [if_neg hidx] at h
    rcases hgs : get_snippet_with_padding O idx s with _ | ⟨snip, spaces, stp⟩
    · rw [hgs] at h
      exact absurd h (by simp)
    · rw [hgs] at h
      injection h with h'
      rw [← h'] at hst
      exact absurd rfl hst

theorem matchPhase_fail (O s r : List Line) (ctx : Option (List Line))
    (res : List Line × Option Nat × Option SweepStatus)
    (h : matchPhase O s r ctx = some res) (hst : res.2.2 ≠ none) :
    res.1 = O ∧ res.2.1 = none := by
  unfold matchPhase at h
  by_cases h0 : (match_string O s none).2.1 = 0
  · rw [if_pos h0] at h
    injection h with h'
    rw [← h']
    exact ⟨rfl, rfl⟩
  · rw [if_neg h0] at h
    by_cases h1 : (match_string O s none).2.2 > 1
    · rw [if_pos h1] at h
      rcases ctx with _ | cb
      · dsimp only at h
        injection h with h'
        rw [← h']
        exact ⟨rfl, rfl⟩
      · dsimp only at h
        by_cases hcb : cb = []
        · rw [if_pos hcb] at h
          injection h with h'
          rw [← h']
          exact ⟨rfl, rfl⟩
        · rw [if_neg hcb] at h
          rcases hgs : get_snippet_with_padding O (match_string O cb none).1 cb with
            _ | ⟨snip, oldSpaces, stp⟩
          · rw [hgs] at h
            exact absurd h (by simp)
          · rw [hgs] at h
            dsimp only at h
            by_cases hmc : (match_string O cb none).2.2 = 1
            · rw [if_pos hmc] at h
              exact spliceAt_fail O s r _ res h hst
            · rw [if_neg hmc] at h
              injection h with h'
              rw [← h']
              exact ⟨rfl, rfl⟩
    · rw [if_neg h1] at h
      exact spliceAt_fail O s r _ res h hst

/-- With no context to disambiguate, the matching phase never escapes with
an exception: its result is always a value. -/
theorem matchPhase_none_ctx_some (O s r : List Line) :
    ∃ res, matchPhase O s r none = some res := by
  unfold matchPhase
  by_cases h0 : (match_string O s none).2.1 = 0
  · rw [if_pos h0]
    exact ⟨_, rfl⟩
  · rw [if_neg h0]
    by_cases h1 : (match_string O s none).2.2 > 1
    · rw [if_pos h1]
      exact ⟨_, rfl⟩
    · rw [if_neg h1]
      unfold spliceAt
      by_cases hidx : (match_string O s none).1 = -1
      · rw [if_pos hidx]
        exact ⟨_, rfl⟩
      · rw [if_neg hidx]
        have hs : s ≠ [] := by
          intro hnil
          rw [hnil] at h0
          exact h0 (match_string_empty_search O none)
        have hinv := match_string_inv O s none
        simp only [Option.isSome_none, Option.getD_none, Int.toNat_zero, Nat.sub_zero] at hinv
        rcases hinv with ⟨hz, _, _, _⟩ | ⟨hmpos, hnn, hmem, hsc, hub, hcnt⟩
        · exact absurd hz h0
        · have hlt : ((match_string O s none).1).toNat < O.length := by
            have := List.mem_range'_1.mp hmem
            omega
          have hcast : (match_string O s none).1 = (((match_string O s none).1).toNat : Int) :=
            (Int.toNat_of_nonneg hnn).symm
          unfold get_snippet_with_padding
          rcases hsshape : s with _ | ⟨s0, tl⟩
          · exact absurd hsshape hs
          · subst hsshape
            dsimp only
            have hsnip : pySlice O (match_string O (s0 :: tl) none).1
                ((match_string O (s0 :: tl) none).1 + (s0 :: tl).length) =
                (O.drop ((match_string O (s0 :: tl) none).1).toNat).take (s0 :: tl).length := by
              rw [hcast]
              exact pySlice_window O _ _
            by_cases hl0 : leadWS s0 = 0
            · rw [if_pos hl0]
              have hne : (O.drop ((match_string O (s0 :: tl) none).1).toNat).take
                  (s0 :: tl).length ≠ [] := by
                intro hnil
                have := congrArg List.length hnil
                simp only [List.length_take, List.length_drop, List.length_nil] at this
                simp only [List.length_cons] at this
                omega
              rw [hsnip]
              rcases hw : (O.drop ((match_string O (s0 :: tl) none).1).toNat).take
                  (s0 :: tl).length with _ | ⟨n0, ntl⟩
              · exact absurd hw hne
              · exact ⟨_, rfl⟩
            · rw [if_neg hl0]
              exact ⟨_, rfl⟩

/-- Case analysis of sliding_window_replacement when the two-part split
branch is not taken: the result is the matching phase applied to the hunk
as-is or to its marker-trimmed form, always over the unchanged original. -/
theorem swr_not_split_cases (O s r : List Line) (ctx : Option (List Line))
    (hns : takesSplitBranch O s r = false) :
    sliding_window_replacement O s r ctx = matchPhase O s r ctx ∨
    sliding_window_replacement O s r ctx = matchPhase O (s.drop 1) (r.drop 1) ctx ∨
    sliding_window_replacement O s r ctx =
      matchPhase O (s.take (findMarkerIdxInt s).toNat)
        (r.take (findMarkerIdxInt r).toNat) ctx := by
  by_cases hc : canDoDotCheck O
  · unfold sliding_window_replacement swrAux
    rw [if_pos hc]
    by_cases hb1 : findMarkerIdxInt s = 0 ∧ findMarkerIdxInt r = 0
    · rw [if_pos hb1]
      right; left; rfl
    · rw [if_neg hb1]
      by_cases hb2 : findMarkerIdxInt s = (s.length : Int) - 1 ∧
          findMarkerIdxInt r = (r.length : Int) - 1
      · rw [if_pos hb2]
        right; right; rfl
      · rw [if_neg hb2]
        have hb3 : ¬(findMarkerIdxInt s ≠ -1 ∧ findMarkerIdxInt r ≠ -1) := by
          intro hb3
          unfold takesSplitBranch at hns
          rw [hc] at hns
          simp only [Bool.true_and, Bool.and_eq_false_iff, Bool.not_eq_false',
            beq_iff_eq, Bool.not_eq_true'] at hns
          rcases hns with hns | hns
          · rcases hns with hns | hns
            · exact hb1 (by constructor <;> simp_all)
            · exact hb2 (by constructor <;> simp_all)
          · rcases hns with hns | hns
            · exact hb3.1 (by simpa using hns)
            · exact hb3.2 (by simpa using hns)
        rw [if_neg hb3]
        left; rfl
  · left
    exact swr_of_not_canDo O s r ctx (by simpa using hc)

/-- Claim C9 (amended): when the two-part ellipsis split does not apply,
sliding_window_replacement never raises; a failure status
(IDENTICAL_LINES, MULTIPLE_HITS or NOT_FOUND) is returned as a value
together with the original line sequence unchanged and no match index. -/
theorem claim_C9_amended (O s r : List Line)
    (hns : takesSplitBranch O s r = false) :
    ∃ res, sliding_window_replacement O s r none = some res ∧
      (∀ st, res.2.2 = some st → res.1 = O ∧ res.2.1 = none) := by
  rcases swr_not_split_cases O s r none hns with h | h | h
  · obtain ⟨res, hres⟩ := matchPhase_none_ctx_some O s r
    exact ⟨res, h.trans hres, fun st hst =>
      matchPhase_fail O s r none res hres (by simp [hst])⟩
  · obtain ⟨res, hres⟩ := matchPhase_none_ctx_some O (s.drop 1) (r.drop 1)
    exact ⟨res, h.trans hres, fun st hst =>
      matchPhase_fail O (s.drop 1) (r.drop 1) none res hres (by simp [hst])⟩
  · obtain ⟨res, hres⟩ := matchPhase_none_ctx_some O
      (s.take (findMarkerIdxInt s).toNat) (r.take (findMarkerIdxInt r).toNat)
    exact ⟨res, h.trans hres, fun st hst =>
      matchPhase_fail O _ _ none res hres (by simp [hst])⟩

/-- Witness for the amended claim C9 at a concrete failing hunk. -/
theorem claim_C9_witness :
    ∃ res, sliding_window_replacement [("a".toList)] [("b".toList)] [("c".toList)] none =
        some res ∧
      (∀ st, res.2.2 = some st → res.1 = [("a".toList)] ∧ res.2.1 = none) :=
  claim_C9_amended [("a".toList)] [("b".toList)] [("c".toList)] (by decide)

/-- Evaluation of get_snippet_with_padding at a valid window start. -/
theorem get_snippet_eval (O : List Line) (idxN : Nat) (s0 : Line) (tl : List Line)
    (hlt : idxN < O.length) :
    get_snippet_with_padding O (idxN : Int) (s0 :: tl) =
      (if leadWS s0 = 0 then
        some ((O.drop idxN).take (s0 :: tl).length,
          List.replicate (leadWS (((O.drop idxN).take (s0 :: tl).length).headD [])) ' ', false)
      else
        some ((O.drop idxN).take (s0 :: tl).length,
          List.replicate (minIndent (s0 :: tl)) ' ', true)) := by
  unfold get_snippet_with_padding
  dsimp only
  rw [pySlice_window O idxN (s0 :: tl).length]
  have hne : (O.drop idxN).take (s0 :: tl).length ≠ [] := by
    intro hnil
    have := congrArg List.length hnil
    simp only [List.length_take, List.length_drop, List.length_nil, List.length_cons] at this
    omega
  by_cases hl0 : leadWS s0 = 0
  · rw [if_pos hl0, if_pos hl0]
    rcases hsn : (O.drop idxN).take (s0 :: tl).length with _ | ⟨n0, ntl⟩
    · exact absurd hsn hne
    · simp
  · rw [if_neg hl0, if_neg hl0]

/-- The success path of the matching phase, spelled out. -/
theorem matchPhase_success (O s r : List Line) (ctx : Option (List Line))
    (snip : List Line) (spaces : Line) (stp : Bool)
    (h0 : ¬(match_string O s none).2.1 = 0)
    (h1 : ¬(match_string O s none).2.2 > 1)
    (hidx : ¬(match_string O s none).1 = -1)
    (hgs : get_snippet_with_padding O (match_string O s none).1 s = some (snip, spaces, stp)) :
    matchPhase O s r ctx =
      some (O.take ((match_string O s none).1).toNat ++ buildModified s r spaces stp ++
              O.drop (((match_string O s none).1).toNat + s.length),
            some ((match_string O s none).1).toNat, none) := by
  unfold matchPhase spliceAt
  rw [if_neg h0, if_neg h1, if_neg hidx, hgs]

theorem no_marker_of_canDo (O : List Line) (hc : canDoDotCheck O = true) :
    ∀ l ∈ O, pyStrip l ≠ elisionMarker := by
  intro l hl heq
  unfold canDoDotCheck at hc
  rw [Bool.not_eq_true'] at hc
  have h2 := List.any_eq_false.mp hc l hl
  rw [heq] at h2
  exact h2 rfl

/-- Claim C4 (amended): for a nonempty search that equals a contiguous
window of the original verbatim, if the match is unique (tie count 1),
sliding_window_replacement applies the hunk at that window's start index
and the similarity score of the match equals the window length (100 times
the length in the centi-unit scale that represents the source's float
scores exactly). -/
theorem claim_C4_amended (O s r : List Line) (k : Nat) (hs : s ≠ [])
    (hk : k + s.length ≤ O.length) (hw : (O.drop k).take s.length = s)
    (hu : (match_string O s none).2.2 = 1) :
    (match_string O s none).2.1 = 100 * s.length ∧
    ∃ res, sliding_window_replacement O s r none = some res ∧ res.2.1 = some k := by
  have hspos : 0 < s.length := List.length_pos.mpr hs
  have hkO : k < O.length := by omega
  have hvb := windowScore_verbatim O s k hk hw
  have hub : ∀ i, windowScore O s false i ≤ windowScore O s false k := by
    intro i
    rw [hvb]
    exact windowScore_le O s i
  have hpos : 0 < windowScore O s false k := by
    rw [hvb]
    omega
  obtain ⟨hmx, hnn, hlt, huniq⟩ := match_string_argmax O s k hkO hpos hub
  have hidx : (match_string O s none).1 = (k : Int) := huniq hu
  have hmx' : (match_string O s none).2.1 = 100 * s.length := by rw [hmx, hvb]
  refine ⟨hmx', ?_⟩
  have hswr : sliding_window_replacement O s r none = matchPhase O s r none := by
    by_cases hc : canDoDotCheck O
    · refine swr_no_marker_in_search O s r none ?_ hs
      apply findMarker_none_of
      intro l hl
      apply no_marker_of_canDo O hc
      rw [← hw] at hl
      exact List.mem_of_mem_drop (List.mem_of_mem_take hl)
    · exact swr_of_not_canDo O s r none (by simpa using hc)
  rw [hswr]
  rcases hsshape : s with _ | ⟨s0, tl⟩
  · exact absurd hsshape hs
  · rw [← hsshape]
    have h0 : ¬(match_string O s none).2.1 = 0 := by
      rw [hmx']
      omega
    have h1 : ¬(match_string O s none).2.2 > 1 := by omega
    have hidxne : ¬(match_string O s none).1 = -1 := by
      rw [hidx]
      omega
    have hgs0 := get_snippet_eval O k s0 tl hkO
    rw [← hsshape] at hgs0
    have hgs : ∃ snip spaces stp,
        get_snippet_with_padding O (match_string O s none).1 s = some (snip, spaces, stp) := by
      rw [hidx]
      by_cases hl0 : leadWS s0 = 0
      · rw [hgs0, if_pos hl0]
        exact ⟨_, _, _, rfl⟩
      · rw [hgs0, if_neg hl0]
        exact ⟨_, _, _, rfl⟩
    obtain ⟨snip, spaces, stp, hgs⟩ := hgs
    rw [matchPhase_success O s r none snip spaces stp h0 h1 hidxne hgs]
    refine ⟨_, rfl, ?_⟩
    rw [hidx, Int.toNat_natCast]

/-- Witness for the amended claim C4 at a concrete unique verbatim match. -/
theorem claim_C4_witness :
    (match_string [("a".toList), ("b".toList)] [("b".toList)] none).2.1 = 100 * 1 ∧
    ∃ res, sliding_window_replacement [("a".toList), ("b".toList)] [("b".toList)]
        [("q".toList)] none = some res ∧ res.2.1 = some 1 := by
  have h := claim_C4_amended [("a".toList), ("b".toList)] [("b".toList)] [("q".toList)] 1
    (by decide) (by decide) (by decide) (by decide)
  simpa using h

/-! ### Whitespace reconstruction lemmas for no-op hunks -/

theorem leadWS_takeWhile (l : Line) : (l.takeWhile isPySpace).length = leadWS l := by
  have h := congrArg List.length (List.takeWhile_append_dropWhile (p := isPySpace) (l := l))
  rw [List.length_append] at h
  unfold leadWS pyLstrip
  omega

theorem line_decompose (l : Line)
    (hsp : l.takeWhile isPySpace = List.replicate (leadWS l) ' ') :
    l = List.replicate (leadWS l) ' ' ++ pyLstrip l := by
  conv_lhs => rw [← List.takeWhile_append_dropWhile (p := isPySpace) (l := l)]
  rw [hsp]
  rfl

theorem dropWhile_head_false (p : Char → Bool) (l : List Char) :
    ∀ c, (l.dropWhile p).head? = some c → p c = false := by
  induction l with
  | nil => intro c h; simp at h
  | cons a t ih =>
    intro c h
    rw [List.dropWhile_cons] at h
    by_cases hp : p a
    · rw [if_pos hp] at h
      exact ih c h
    · rw [if_neg hp] at h
      simp only [List.head?_cons, Option.some.injEq] at h
      rw [← h]
      simpa using hp

theorem lstrip_max_run (m : Nat) : ∀ (n : Nat) (t : Line), m ≤ n →
    (∀ c, t.head? = some c → c ≠ ' ') →
    lstrip_max (List.replicate n ' ' ++ t) [' '] m = List.replicate (n - m) ' ' ++ t := by
  induction m with
  | zero =>
    intro n t _ _
    simp [lstrip_max]
  | succ m ih =>
    intro n t hmn ht
    rcases n with _ | n
    · omega
    · rw [List.replicate_succ, List.cons_append]
      show lstrip_max (' ' :: (List.replicate n ' ' ++ t)) [' '] (m + 1) = _
      unfold lstrip_max
      rw [if_pos (by simp)]
      rw [ih n t (by omega) ht]
      congr 2
      omega

theorem foldl_min_le_init : ∀ (l : List Nat) (a : Nat), l.foldl min a ≤ a
  | [], a => le_refl a
  | x :: l, a => (foldl_min_le_init l (min a x)).trans (min_le_left a x)

theorem foldl_min_le_mem : ∀ (l : List Nat) (a x : Nat), x ∈ l → l.foldl min a ≤ x
  | y :: l, a, x, h => by
    rcases List.mem_cons.mp h with h | h
    · subst h
      exact (foldl_min_le_init l (min a x)).trans (min_le_right a x)
    · exact foldl_min_le_mem l (min a y) x h

theorem minIndent_le (s : List Line) (l : Line) (hl : l ∈ s) : minIndent s ≤ leadWS l := by
  rcases s with _ | ⟨s0, tl⟩
  · simp at hl
  · unfold minIndent
    simp only [List.map_cons]
    rcases List.mem_cons.mp hl with h | h
    · subst h
      exact foldl_min_le_init _ _
    · exact foldl_min_le_mem _ _ _ (List.mem_map_of_mem leadWS h)

/-- For a hunk whose lines have all-space leading whitespace, the
stripping branch of the whitespace reconciler reconstructs each line
exactly. -/
theorem buildModified_strip_id (s : List Line)
    (hsp : ∀ l ∈ s, l.takeWhile isPySpace = List.replicate (leadWS l) ' ') :
    buildModified s s (List.replicate (minIndent s) ' ') true = s := by
  unfold buildModified
  rw [if_pos rfl]
  have h : ∀ l ∈ s, List.replicate (minIndent s) ' ' ++ lstrip_max l [' '] (minIndent s) = l := by
    intro l hl
    have hd := line_decompose l (hsp l hl)
    have hht : ∀ c, (pyLstrip l).head? = some c → c ≠ ' ' := by
      intro c hc hsp'
      have := dropWhile_head_false isPySpace l c hc
      rw [hsp'] at this
      simp [isPySpace] at this
    conv_lhs => rw [hd]
    rw [lstrip_max_run (minIndent s) (leadWS l) (pyLstrip l) (minIndent_le s l hl) hht]
    rw [← List.append_assoc, ← List.replicate_add]
    have : minIndent s + (leadWS l - minIndent s) = leadWS l := by
      have := minIndent_le s l hl
      omega
    rw [this, ← hd]
  calc s.map (fun l => List.replicate (minIndent s) ' ' ++ lstrip_max l [' '] (minIndent s))
      = s.map id := List.map_congr_left h
    _ = s := List.map_id s

theorem matchPhase_empty_search (O r : List Line) (ctx : Option (List Line)) :
    matchPhase O [] r ctx = some (O, none, some SweepStatus.IDENTICAL_LINES) := by
  unfold matchPhase
  rw [if_pos (match_string_empty_search O none)]

theorem window_splice_id (O s : List Line) (k : Nat)
    (hw : (O.drop k).take s.length = s) :
    O.take k ++ s ++ O.drop (k + s.length) = O := by
  conv_rhs => rw [← List.take_append_drop k O]
  rw [List.append_assoc]
  congr 1
  conv_rhs => rw [← List.take_append_drop s.length (O.drop k)]
  rw [hw]
  congr 1
  rw [List.drop_drop]

theorem swr_empty_hunk (O : List Line) (ctx : Option (List Line)) :
    sliding_window_replacement O [] [] ctx = matchPhase O [] [] ctx := by
  by_cases hc : canDoDotCheck O
  · unfold sliding_window_replacement swrAux
    rw [if_pos hc]
    have hm : findMarkerIdxInt ([] : List Line) = -1 := rfl
    simp only [hm]
    rw [if_neg (by rintro ⟨h1, -⟩; norm_num at h1)]
    rw [if_pos (by constructor <;> simp)]
    simp
  · exact swr_of_not_canDo O [] [] ctx (by simpa using hc)

/-- A search that occurs verbatim in the original is never rewritten by
the ellipsis preprocessing: any marker line it contained would also be a
line of the original and disable the dot check. -/
theorem swr_verbatim_window_matchPhase (O s r : List Line) (ctx : Option (List Line))
    (k : Nat) (hs : s ≠ []) (hw : (O.drop k).take s.length = s) :
    sliding_window_replacement O s r ctx = matchPhase O s r ctx := by
  by_cases hc : canDoDotCheck O
  · refine swr_no_marker_in_search O s r ctx ?_ hs
    apply findMarker_none_of
    intro l hl
    apply no_marker_of_canDo O hc
    rw [← hw] at hl
    exact List.mem_of_mem_drop (List.mem_of_mem_take hl)
  · exact swr_of_not_canDo O s r ctx (by simpa using hc)

/-- Claim C3 (amended): applying a hunk with search = replace yields the
original sequence whenever the search occurs verbatim as a contiguous
window of the original and every search line's leading whitespace
consists of spaces only. -/
theorem claim_C3_amended (O s : List Line) (k : Nat)
    (hk : k + s.length ≤ O.length) (hw : (O.drop k).take s.length = s)
    (hsp : ∀ l ∈ s, l.takeWhile isPySpace = List.replicate (leadWS l) ' ') :
    ∃ res, sliding_window_replacement O s s none = some res ∧ res.1 = O := by
  rcases hsE : s with _ | ⟨s0, tl⟩
  · subst hsE
    rw [swr_empty_hunk, matchPhase_empty_search]
    exact ⟨_, rfl, rfl⟩
  · subst hsE
    have hs : s0 :: tl ≠ [] := by simp
    have hswr := swr_verbatim_window_matchPhase O (s0 :: tl) (s0 :: tl) none k hs hw
    rw [hswr]
    by_cases h0 : (match_string O (s0 :: tl) none).2.1 = 0
    · unfold matchPhase
      rw [if_pos h0]
      exact ⟨_, rfl, rfl⟩
    · by_cases h1 : (match_string O (s0 :: tl) none).2.2 > 1
      · unfold matchPhase
        rw [if_neg h0, if_pos h1]
        exact ⟨(O, none, some SweepStatus.MULTIPLE_HITS), rfl, rfl⟩
      · have hspos : 0 < (s0 :: tl).length := by simp
        have hkO : k < O.length := by
          simp only [List.length_cons] at hk ⊢
          omega
        have hvb := windowScore_verbatim O (s0 :: tl) k hk hw
        have hub : ∀ i, windowScore O (s0 :: tl) false i ≤ windowScore O (s0 :: tl) false k := by
          intro i
          rw [hvb]
          exact windowScore_le O (s0 :: tl) i
        have hpos : 0 < windowScore O (s0 :: tl) false k := by
          rw [hvb]
          simp only [List.length_cons]
          omega
        obtain ⟨hmx, hnn, hlt, huniq⟩ := match_string_argmax O (s0 :: tl) k hkO hpos hub
        have hone : (match_string O (s0 :: tl) none).2.2 = 1 := by
          have hinv := match_string_inv O (s0 :: tl) none
          simp only [Option.isSome_none, Option.getD_none, Int.toNat_zero, Nat.sub_zero] at hinv
          rcases hinv with ⟨hz, _, _, _⟩ | ⟨_, _, hmem, hsc, _, hcnt⟩
          · exact absurd hz h0
          · have hgt : 0 < (match_string O (s0 :: tl) none).2.2 := by
              rw [hcnt]
              exact List.countP_pos_iff.mpr ⟨_, hmem, by simp [hsc]⟩
            omega
        have hidx : (match_string O (s0 :: tl) none).1 = (k : Int) := huniq hone
        have hidxne : ¬(match_string O (s0 :: tl) none).1 = -1 := by
          rw [hidx]
          omega
        have hgs0 := get_snippet_eval O k s0 tl hkO
        rw [hw] at hgs0
        by_cases hl0 : leadWS s0 = 0
        · rw [if_pos hl0] at hgs0
          have hhead : ((s0 :: tl).headD []) = s0 := rfl
          rw [hhead, hl0] at hgs0
          have hgs : get_snippet_with_padding O (match_string O (s0 :: tl) none).1 (s0 :: tl) =
              some (s0 :: tl, [], false) := by
            rw [hidx, hgs0]
            rfl
          rw [matchPhase_success O (s0 :: tl) (s0 :: tl) none _ _ _ h0 h1 hidxne hgs]
          refine ⟨_, rfl, ?_⟩
          show O.take _ ++ buildModified (s0 :: tl) (s0 :: tl) [] false ++ _ = O
          have hbm : buildModified (s0 :: tl) (s0 :: tl) [] false = s0 :: tl := by
            unfold buildModified
            simp
          rw [hbm, hidx, Int.toNat_natCast]
          exact window_splice_id O (s0 :: tl) k hw
        · rw [if_neg hl0] at hgs0
          have hgs : get_snippet_with_padding O (match_string O (s0 :: tl) none).1 (s0 :: tl) =
              some (s0 :: tl, List.replicate (minIndent (s0 :: tl)) ' ', true) := by
            rw [hidx, hgs0]
          rw [matchPhase_success O (s0 :: tl) (s0 :: tl) none _ _ _ h0 h1 hidxne hgs]
          refine ⟨_, rfl, ?_⟩
          show O.take _ ++ buildModified (s0 :: tl) (s0 :: tl)
              (List.replicate (minIndent (s0 :: tl)) ' ') true ++ _ = O
          rw [buildModified_strip_id (s0 :: tl) hsp, hidx, Int.toNat_natCast]
          exact window_splice_id O (s0 :: tl) k hw

/-- Witness for the amended claim C3 at a concrete indented no-op hunk. -/
theorem claim_C3_witness :
    ∃ res, sliding_window_replacement [("  a".toList), ("x".toList)] [("  a".toList)]
        [("  a".toList)] none = some res ∧ res.1 = [("  a".toList), ("x".toList)] :=
  claim_C3_amended [("  a".toList), ("x".toList)] [("  a".toList)] 0
    (by decide) (by decide) (by decide)

/-! ### Characterization of the ellipsis guard -/

theorem startsWithDots_iff (l : List Char) :
    startsWithDots l = true ↔ ∃ t, l = '.' :: '.' :: '.' :: t := by
  rcases l with _ | ⟨a, _ | ⟨b, _ | ⟨c, t⟩⟩⟩
  · simp [startsWithDots]
  · simp [startsWithDots]
  · simp [startsWithDots]
  · simp only [startsWithDots, Bool.and_eq_true, beq_iff_eq]
    constructor
    · rintro ⟨⟨ha, hb⟩, hc⟩
      exact ⟨t, by rw [ha, hb, hc]⟩
    · rintro ⟨t', ht⟩
      injection ht with h1 ht
      injection ht with h2 ht
      injection ht with h3 ht
      exact ⟨⟨h1, h2⟩, h3⟩

theorem containsDots_iff (l : List Char) :
    containsDots l = true ↔ ∃ a b, l = a ++ '.' :: '.' :: '.' :: b := by
  induction l with
  | nil =>
    simp [containsDots]
  | cons c rest ih =>
    show (startsWithDots (c :: rest) || containsDots rest) = true ↔ _
    rw [Bool.or_eq_true, ih, startsWithDots_iff]
    constructor
    · rintro (⟨t, ht⟩ | ⟨a, b, hab⟩)
      · exact ⟨[], t, by rw [ht]; rfl⟩
      · exact ⟨c :: a, b, by rw [List.cons_append, hab]⟩
    · rintro ⟨a, b, hab⟩
      rcases a with _ | ⟨a0, a'⟩
      · left
        exact ⟨b, by simpa using hab⟩
      · right
        rw [List.cons_append] at hab
        injection hab with h1 h2
        exact ⟨a', b, h2⟩

theorem canDoDotCheck_iff (O : List Line) :
    canDoDotCheck O = true ↔
      ∀ l ∈ O, ¬ ∃ a b, pyStrip l = a ++ '.' :: '.' :: '.' :: b := by
  unfold canDoDotCheck
  rw [Bool.not_eq_true', List.any_eq_false]
  constructor
  · intro h l hl hex
    exact (h l hl) ((containsDots_iff _).mpr hex)
  · intro h l hl hc
    exact (h l hl) ((containsDots_iff _).mp hc)

/-- Claim C5 (amended): the ellipsis preprocessing is allowed exactly when
no line of the original CONTAINS three consecutive dots in its trimmed
content (substring containment, not equality with the marker); when the
guard fails the hunk is matched as-is with no marker removal, and when it
holds a hunk with marker lines at the head of both search and replace is
trimmed before matching. -/
theorem claim_C5_amended (O s r : List Line) (ctx : Option (List Line)) :
    ((canDoDotCheck O = true) ↔
      ∀ l ∈ O, ¬ ∃ a b, pyStrip l = a ++ '.' :: '.' :: '.' :: b) ∧
    (canDoDotCheck O = false →
      sliding_window_replacement O s r ctx = matchPhase O s r ctx) ∧
    (canDoDotCheck O = true → findMarkerIdxInt s = 0 → findMarkerIdxInt r = 0 →
      sliding_window_replacement O s r ctx = matchPhase O (s.drop 1) (r.drop 1) ctx) :=
  ⟨canDoDotCheck_iff O, swr_of_not_canDo O s r ctx, swr_trim_head O s r ctx⟩

/-- Witness for the amended claim C5: a guard-disabling original is
matched as-is, and a marker-headed hunk over a dot-free original is
trimmed. -/
theorem claim_C5_witness :
    sliding_window_replacement [("a...b".toList)] [("x".toList)] [("y".toList)] none =
        matchPhase [("a...b".toList)] [("x".toList)] [("y".toList)] none ∧
    sliding_window_replacement [("q".toList)] [("...".toList), ("x".toList)]
        [("...".toList), ("y".toList)] none =
      matchPhase [("q".toList)] [("x".toList)] [("y".toList)] none :=
  ⟨(claim_C5_amended [("a...b".toList)] [("x".toList)] [("y".toList)] none).2.1 (by decide),
   (claim_C5_amended [("q".toList)] [("...".toList), ("x".toList)]
       [("...".toList), ("y".toList)] none).2.2 (by decide) (by decide) (by decide)⟩

/-- Claim C6 (amended): when the initial match has NONZERO best similarity
and tie count above 1, and a nonempty context that matches at exactly one
best index is present, sliding_window_replacement recomputes the main
match starting strictly after the context's START index (old index + 1),
with the context's resolved indentation prefixed to each search line, and
commits to that recomputed index regardless of the recomputed tie count. -/
theorem claim_C6_amended (O s r cb : List Line)
    (i0 : Int) (mx0 h0 : Nat) (hm : match_string O s none = (i0, mx0, h0))
    (hmx : mx0 ≠ 0) (hh : 1 < h0)
    (hnm : findMarkerIdxInt s = -1)
    (hcb : cb ≠ [])
    (oi : Int) (mxc : Nat) (hmc : match_string O cb none = (oi, mxc, 1))
    (snipc : List Line) (spaces : Line) (stpc : Bool)
    (hsnip : get_snippet_with_padding O oi cb = some (snipc, spaces, stpc))
    (i2 : Int) (mx2 h2 : Nat)
    (hm2 : match_string O (s.map (fun l => spaces ++ l)) (some (oi + 1)) = (i2, mx2, h2))
    (hi2 : i2 ≠ -1)
    (sn2 : List Line) (sp2 : Line) (st2 : Bool)
    (hfin : get_snippet_with_padding O i2 s = some (sn2, sp2, st2)) :
    sliding_window_replacement O s r (some cb) =
      some (O.take i2.toNat ++ buildModified s r sp2 st2 ++ O.drop (i2.toNat + s.length),
            some i2.toNat, none) := by
  have hs : s ≠ [] := by
    intro hnil
    subst hnil
    have h := match_string_empty_search O none
    rw [hm] at h
    exact hmx h
  rw [swr_no_marker_in_search O s r (some cb) hnm hs]
  unfold matchPhase
  rw [hm]
  dsimp only
  rw [if_neg hmx, if_pos hh, if_neg hcb, hmc]
  dsimp only
  rw [hsnip]
  dsimp only
  rw [if_pos rfl, hm2]
  dsimp only
  unfold spliceAt
  rw [if_neg hi2, hfin]

/-- Witness for the amended claim C6: the tie at indices 1 and 2 is
resolved by the two-line context matching at index 0, and the recomputed
scan starting at index 1 applies the hunk AT index 1 even though the
recomputed scan itself ties again. -/
theorem claim_C6_witness :
    sliding_window_replacement [("A".toList), ("B".toList), ("B".toList)] [("B".toList)]
        [("Z".toList)] (some [("A".toList), ("B".toList)]) =
      some ([("A".toList), ("B".toList), ("B".toList)].take 1 ++
              buildModified [("B".toList)] [("Z".toList)] [] false ++
              [("A".toList), ("B".toList), ("B".toList)].drop 2,
            some 1, none) :=
  claim_C6_amended [("A".toList), ("B".toList), ("B".toList)] [("B".toList)] [("Z".toList)]
    [("A".toList), ("B".toList)] 1 100 2 (by decide) (by decide) (by decide) (by decide)
    (by decide) 0 200 (by decide) [("A".toList), ("B".toList)] [] false (by decide)
    1 101 2 (by decide) (by decide) [("B".toList)] [] false (by decide)

/-! ### Parsing a well-formed hunk block (claim C8) -/

theorem hasRun4_tail_false (c x : Char) (xs : List Char)
    (h : hasRun4 c (x :: xs) = false) : hasRun4 c xs = false := by
  unfold hasRun4 at h
  rcases xs with _ | ⟨y, ys⟩
  · rfl
  · exact (Bool.or_eq_false_iff.mp h).2

theorem take4_append_ne (c : Char) (hc : c ≠ '\n') (X Y : List Char)
    (hrun : hasRun4 c X = false) :
    (X ++ '\n' :: Y).take 4 ≠ [c, c, c, c] := by
  intro h
  rcases X with _ | ⟨x1, _ | ⟨x2, _ | ⟨x3, _ | ⟨x4, X'⟩⟩⟩⟩
  · simp only [List.nil_append, List.take, List.cons.injEq] at h
    exact hc h.1.symm
  · simp only [List.cons_append, List.nil_append, List.take, List.cons.injEq] at h
    exact hc h.2.1.symm
  · simp only [List.cons_append, List.nil_append, List.take, List.cons.injEq] at h
    exact hc h.2.2.1.symm
  · simp only [List.cons_append, List.nil_append, List.take, List.cons.injEq] at h
    exact hc h.2.2.2.1.symm
  · simp only [List.cons_append, List.take, List.cons.injEq] at h
    obtain ⟨h1, h2, h3, h4, -⟩ := h
    unfold hasRun4 startsRun4 at hrun
    rw [h1, h2, h3, h4] at hrun
    simp at hrun

theorem take5_append_ne (c : Char) (hc : c ≠ '\n') (X Y : List Char) (hX : X ≠ [])
    (hrun : hasRun4 c X = false) :
    (X ++ '\n' :: Y).take 5 ≠ ['\n', c, c, c, c] := by
  intro h
  rcases X with _ | ⟨x1, _ | ⟨x2, _ | ⟨x3, _ | ⟨x4, _ | ⟨x5, X'⟩⟩⟩⟩⟩
  · exact hX rfl
  · simp only [List.cons_append, List.nil_append, List.take, List.cons.injEq] at h
    exact hc h.2.1.symm
  · simp only [List.cons_append, List.nil_append, List.take, List.cons.injEq] at h
    exact hc h.2.2.1.symm
  · simp only [List.cons_append, List.nil_append, List.take, List.cons.injEq] at h
    exact hc h.2.2.2.1.symm
  · simp only [List.cons_append, List.nil_append, List.take, List.cons.injEq] at h
    exact hc h.2.2.2.2.1.symm
  · simp only [List.cons_append, List.take, List.cons.injEq] at h
    obtain ⟨h1, h2, h3, h4, h5, -⟩ := h
    unfold hasRun4 at hrun
    rcases Bool.or_eq_false_iff.mp hrun with ⟨-, hrun2⟩
    unfold hasRun4 startsRun4 at hrun2
    rw [h2, h3, h4, h5] at hrun2
    simp at hrun2

theorem closeAt_boundary (X Y : List Char) (hX : X ≠ [])
    (hrun : hasRun4 '>' X = false) :
    closeAt (X ++ '\n' :: Y) = none := by
  unfold closeAt
  rw [if_neg (take5_append_ne '>' (by decide) X Y hX hrun),
    if_neg (take4_append_ne '>' (by decide) X Y hrun)]

theorem closeAt_found (u : List Char) :
    closeAt ('\n' :: '>' :: '>' :: '>' :: '>' :: u) = some u := rfl

theorem findReplAux_run (R : List Char) (hrun : hasRun4 '>' R = false) :
    ∀ (acc u : List Char),
      findReplAux acc (R ++ '\n' :: '>' :: '>' :: '>' :: '>' :: u) =
        some (acc.reverse ++ R, u) := by
  induction R with
  | nil =>
    intro acc u
    rw [List.nil_append, findReplAux, closeAt_found]
    simp
  | cons c R' ih =>
    intro acc u
    have hcb := closeAt_boundary (c :: R') ('>' :: '>' :: '>' :: '>' :: u) (by simp) hrun
    rw [List.cons_append] at hcb
    rw [List.cons_append, findReplAux, hcb]
    show findReplAux (c :: acc) (R' ++ '\n' :: '>' :: '>' :: '>' :: '>' :: u) = _
    rw [ih (hasRun4_tail_false '>' c R' hrun) (c :: acc) u]
    simp

theorem sepTail_run (T : List Char) (hT : ∀ c ∈ T, c ≠ '\n' ∧ c ≠ '=') :
    ∀ rest : List Char, sepTail (T ++ '\n' :: rest) = some rest := by
  induction T with
  | nil =>
    intro rest
    rfl
  | cons c T' ih =>
    intro rest
    have hc := hT c (List.mem_cons_self c T')
    show sepTail (c :: (T' ++ '\n' :: rest)) = some rest
    unfold sepTail
    rw [if_neg hc.1, if_neg hc.2]
    exact ih (fun x hx => hT x (List.mem_cons_of_mem c hx)) rest

theorem findSearchAux_run (S : List Char) (hS : hasRun4 '=' S = false)
    (T : List Char) (hT : ∀ c ∈ T, c ≠ '\n' ∧ c ≠ '=')
    (R : List Char) (hR : hasRun4 '>' R = false) :
    ∀ (acc u : List Char),
      findSearchAux acc (S ++ '\n' :: '=' :: '=' :: '=' :: '=' ::
          (T ++ '\n' :: (R ++ '\n' :: '>' :: '>' :: '>' :: '>' :: u))) =
        some (acc.reverse ++ S, R, u) := by
  induction S with
  | nil =>
    intro acc u
    rw [List.nil_append, findSearchAux]
    have hcond : List.take 5 ('\n' :: '=' :: '=' :: '=' :: '=' ::
        (T ++ '\n' :: (R ++ '\n' :: '>' :: '>' :: '>' :: '>' :: u))) =
        ['\n', '=', '=', '=', '='] := rfl
    rw [if_pos hcond]
    rw [show List.drop 5 ('\n' :: '=' :: '=' :: '=' :: '=' ::
        (T ++ '\n' :: (R ++ '\n' :: '>' :: '>' :: '>' :: '>' :: u))) =
        T ++ '\n' :: (R ++ '\n' :: '>' :: '>' :: '>' :: '>' :: u) from rfl]
    unfold afterSep
    rw [sepTail_run T hT]
    dsimp only
    rw [findReplAux_run R hR [] u]
    simp
  | cons c S' ih =>
    intro acc u
    have hne := take5_append_ne '=' (by decide) (c :: S')
      ('=' :: '=' :: '=' :: '=' :: (T ++ '\n' :: (R ++ '\n' :: '>' :: '>' :: '>' :: '>' :: u)))
      (by simp) hS
    rw [List.cons_append] at hne
    rw [List.cons_append, findSearchAux, if_neg hne]
    rw [ih (hasRun4_tail_false '=' c S' hS) (c :: acc) u]
    simp

theorem openTailAux_run (REST : List Char) (v : List Char × List Char × List Char)
    (hfind : findSearchAux [] REST = some v) :
    ∀ m : Nat, openTailAux (List.replicate m '<' ++ '\n' :: REST) = some v := by
  intro m
  induction m with
  | zero =>
    show openTailAux ('\n' :: REST) = some v
    unfold openTailAux
    rw [if_pos rfl, hfind]
  | succ m ih =>
    show openTailAux ('<' :: (List.replicate m '<' ++ '\n' :: REST)) = some v
    unfold openTailAux
    rw [if_neg (by decide)]
    exact ih


theorem matchHunkAt_block (a : Nat) (ha : 4 ≤ a) (S T R : List Char) (b : Nat) (hb : 4 ≤ b)
    (hS : hasRun4 '=' S = false) (hT : ∀ c ∈ T, c ≠ '\n' ∧ c ≠ '=')
    (hR : hasRun4 '>' R = false) :
    matchHunkAt (mkHunkBlock a S T R b) = some (S, R, List.replicate (b - 4) '>') := by
  obtain ⟨k, rfl⟩ : ∃ k, a = k + 4 := ⟨a - 4, by omega⟩
  obtain ⟨kb, rfl⟩ : ∃ kb, b = kb + 4 := ⟨b - 4, by omega⟩
  unfold mkHunkBlock
  rw [show List.replicate (k + 4) '<' = '<' :: '<' :: '<' :: '<' :: List.replicate k '<' by
    rw [Nat.add_comm, List.replicate_add]
    rfl]
  rw [show List.replicate (kb + 4) '>' = '>' :: '>' :: '>' :: '>' :: List.replicate kb '>' by
    rw [Nat.add_comm, List.replicate_add]
    rfl]
  show matchHunkAt ('<' :: '<' :: '<' :: '<' :: (List.replicate k '<' ++ '\n' ::
      (S ++ '\n' :: '=' :: '=' :: '=' :: '=' ::
        (T ++ '\n' :: (R ++ '\n' :: '>' :: '>' :: '>' :: '>' :: List.replicate kb '>'))))) = _
  unfold matchHunkAt
  have hcond : List.take 4 ('<' :: '<' :: '<' :: '<' :: (List.replicate k '<' ++ '\n' ::
      (S ++ '\n' :: '=' :: '=' :: '=' :: '=' ::
        (T ++ '\n' :: (R ++ '\n' :: '>' :: '>' :: '>' :: '>' :: List.replicate kb '>'))))) =
      ['<', '<', '<', '<'] := rfl
  rw [if_pos hcond]
  rw [show List.drop 4 ('<' :: '<' :: '<' :: '<' :: (List.replicate k '<' ++ '\n' ::
      (S ++ '\n' :: '=' :: '=' :: '=' :: '=' ::
        (T ++ '\n' :: (R ++ '\n' :: '>' :: '>' :: '>' :: '>' :: List.replicate kb '>'))))) =
      List.replicate k '<' ++ '\n' :: (S ++ '\n' :: '=' :: '=' :: '=' :: '=' ::
        (T ++ '\n' :: (R ++ '\n' :: '>' :: '>' :: '>' :: '>' :: List.replicate kb '>'))) from rfl]
  have hfind : findSearchAux [] (S ++ '\n' :: '=' :: '=' :: '=' :: '=' ::
      (T ++ '\n' :: (R ++ '\n' :: '>' :: '>' :: '>' :: '>' :: List.replicate kb '>'))) =
      some (S, R, List.replicate kb '>') := by
    have h := findSearchAux_run S hS T hT R hR [] (List.replicate kb '>')
    simpa using h
  rw [openTailAux_run _ (S, R, List.replicate kb '>') hfind k]
  congr 3

theorem matchHunkAt_replicate_gt (k : Nat) :
    matchHunkAt (List.replicate k '>') = none := by
  unfold matchHunkAt
  rcases k with _ | _ | _ | _ | k
  · rfl
  · rfl
  · rfl
  · rfl
  · rw [show List.replicate (k + 1 + 1 + 1 + 1) '>' =
        '>' :: '>' :: '>' :: '>' :: List.replicate k '>' by
      rw [show k + 1 + 1 + 1 + 1 = 4 + k by omega, List.replicate_add]
      rfl]
    rw [if_neg ?_]
    intro h
    have h2 := congrArg (fun l => l.headD ' ') h
    simp at h2

theorem scanAux_replicate_gt (fuel : Nat) :
    ∀ k, scanAux fuel (List.replicate k '>') = [] := by
  induction fuel with
  | zero =>
    intro k
    rfl
  | succ fuel ih =>
    intro k
    rcases k with _ | k
    · rfl
    · have hm := matchHunkAt_replicate_gt (k + 1)
      rw [show List.replicate (k + 1) '>' = '>' :: List.replicate k '>' from rfl] at hm ⊢
      unfold scanAux
      rw [hm]
      exact ih k

theorem scanAux_step_match (fuel : Nat) (l : List Char) (hl : l ≠ [])
    (s r rest : List Char) (h : matchHunkAt l = some (s, r, rest)) :
    scanAux (fuel + 1) l = (s, r) :: scanAux fuel rest := by
  rcases l with _ | ⟨c, cs⟩
  · exact absurd rfl hl
  · conv_lhs => unfold scanAux
    rw [h]

/-- Claim C8 (amended): the parser extracts the (search, replace) pair
from every block with an opening marker of four or more open-angle chars,
a separator line of EXACTLY four equals chars followed by an optional
trailer free of equals chars and newlines, and a closing marker of four
or more close-angle chars - provided the search text contains no run of
four equals chars and the replace text no run of four close-angle chars,
which would terminate the non-greedy captures early. A five-equals
separator line is NOT accepted (claim_C8_counterexample). -/
theorem claim_C8_amended (a b : Nat) (S T R : List Char) (ha : 4 ≤ a) (hb : 4 ≤ b)
    (hT : ∀ c ∈ T, c ≠ '\n' ∧ c ≠ '=')
    (hS : hasRun4 '=' S = false) (hR : hasRun4 '>' R = false) :
    get_all_matches (mkHunkBlock a S T R b) = [(S, R)] := by
  have hne : mkHunkBlock a S T R b ≠ [] := by
    intro h
    have hlen := congrArg List.length h
    simp [mkHunkBlock] at hlen
  unfold get_all_matches
  rw [scanAux_step_match _ _ hne S R (List.replicate (b - 4) '>')
    (matchHunkAt_block a ha S T R b hb hS hT hR)]
  rw [scanAux_replicate_gt]

/-- Witness for the amended claim C8 at a concrete block with five-char
angle markers and a separator trailer. -/
theorem claim_C8_witness :
    get_all_matches (mkHunkBlock 5 ("foo".toList) (" sep".toList) ("bar".toList) 5) =
      [("foo".toList, "bar".toList)] :=
  claim_C8_amended 5 5 ("foo".toList) (" sep".toList) ("bar".toList)
    (by decide) (by decide) (by decide) (by decide) (by decide)
